import Mathlib

/-!
Verification development for the musx-object-model entry/frame/tuplet
traversal engine (`details::GFrameHold::iterateEntries` and its helpers).
The C++ source is shallowly embedded: the entry pool, frame incarnations
and tuplet definitions become explicit data, the traversal loop becomes a
fuel-indexed recursive function whose outcome records the emitted
`EntryInfo` sequence, the reported integrity errors, and the loop-local
state at exit.
-/

namespace Musx

/-- Modelled from the spec: `Edu(Entry::NoteType::Whole)`, the number of
ticks in a whole note (1024 ticks per quarter note). -/
def wholeNoteEdu : Int := 4096

/-- Modelled from the spec: `util::Fraction` (not under src/) is an exact
rational duration type constructed from a numerator and a denominator;
all arithmetic is exact integer fraction arithmetic, so it is embedded as
`ℚ` and `Fraction(n, d)` becomes `(n : ℚ) / (d : ℚ)`. -/
def mkFraction (n d : Int) : ℚ := (n : ℚ) / (d : ℚ)

/-- Modelled from the spec: the `Entry` class declaration (not under src/):
a unique entry number, a duration in ticks, and the stored identity of the
next entry in the chain (0 meaning none). -/
structure Entry where
  entnum : Nat
  duration : Int
  next : Nat
deriving DecidableEq, Repr

/-- Modelled from the spec: `Entry::calcFraction` (not under src/) returns
the nominal duration in ticks as a fraction of a whole note. -/
def Entry.calcFraction (e : Entry) : ℚ := mkFraction e.duration wholeNoteEdu

/-- Embeds `details::TupletDef` (unnamed/part_000): the four fields that
determine durations and ratio. -/
structure TupletDef where
  displayNumber : Int
  displayDuration : Int
  referenceNumber : Int
  referenceDuration : Int
deriving DecidableEq, Repr

/-- Embeds `TupletDef::calcReferenceDuration` (unnamed/part_000 line 183). -/
def TupletDef.calcReferenceDuration (t : TupletDef) : ℚ :=
  mkFraction (t.referenceNumber * t.referenceDuration) wholeNoteEdu

/-- Embeds `TupletDef::calcDisplayDuration` (unnamed/part_000 line 186). -/
def TupletDef.calcDisplayDuration (t : TupletDef) : ℚ :=
  mkFraction (t.displayNumber * t.displayDuration) wholeNoteEdu

/-- Embeds `TupletDef::calcRatio` (unnamed/part_000 line 189). -/
def TupletDef.calcRatio (t : TupletDef) : ℚ :=
  mkFraction (t.referenceNumber * t.referenceDuration)
    (t.displayNumber * t.displayDuration)

/-- Embeds `TupletState` (Others.h lines 734-751): the remaining symbolic
duration, the ratio, and the underlying tuplet. -/
structure TupletState where
  remainingSymbolicDuration : ℚ
  ratio : ℚ
  tuplet : TupletDef
deriving DecidableEq, Repr

/-- Embeds the `TupletState` constructor (Others.h lines 745-750):
remaining symbolic duration is display number times display duration over
a whole note, and ratio is the reference product over the display product.
The source names the reference fields `inTheTimeOfNumber` and
`inTheTimeOfDuration`; unnamed/part_000 names them `referenceNumber` and
`referenceDuration`. -/
def TupletState.ofDef (t : TupletDef) : TupletState where
  remainingSymbolicDuration :=
    mkFraction (t.displayNumber * t.displayDuration) wholeNoteEdu
  ratio :=
    mkFraction (t.referenceNumber * t.referenceDuration)
      (t.displayNumber * t.displayDuration)
  tuplet := t

/-- Modelled from the spec: the `others::Frame` class (not under src/):
one incarnation of a frame id, carrying an optional start entry number
(0 meaning absent), the recorded end entry number, and a start time in
ticks used as pickup pre-roll. -/
structure Frame where
  startEntry : Nat
  endEntry : Nat
  startTime : Int
deriving DecidableEq, Repr

/-- Embeds `details::GFrameHold` fields (unnamed/part_000 lines 79-90):
the optional single clef id, the clef list id (0 meaning unset), the
per-layer frame ids (the constructor sizes the vector to `MAX_LAYERS` = 4),
and the staff and measure identities. -/
structure GFrameHold where
  clefId : Option Int
  clefListId : Nat
  frames : List Nat
  staff : Int
  measure : Int

/-- Embeds `GFrameHold::integrityCheck` (unnamed/part_000 lines 115-124):
the list of clef-related consistency violations it reports. -/
def GFrameHold.integrityErrors (g : GFrameHold) : List String :=
  (if g.clefListId ≠ 0 ∧ g.clefId.isSome then
    ["gfhold has both clef and clef list"] else []) ++
  (if g.clefListId = 0 ∧ g.clefId.isNone then
    ["gfhold has neither clef nor clef list"] else [])

/-- Modelled from the spec: the Entity Store interface consumed by the
traversal engine: the entry pool, `getArray<others::Frame>` keyed by frame
id, and `getArray<details::TupletDef>` keyed by entry number. -/
structure Document where
  entries : List Entry
  frameIncis : Nat → List Frame
  tupletsFor : Nat → List TupletDef

/-- Modelled from the spec: `EntryPool::get<Entry>` resolves an entry
number in the pool, or returns none. -/
def Document.lookupEntry (doc : Document) (n : Nat) : Option Entry :=
  doc.entries.find? (fun e => e.entnum == n)

/-- Outcome of advancing along the entry chain by one step. -/
inductive NextResult where
  | found (e : Entry)
  | chainEnd
  | dangling
deriving DecidableEq, Repr

/-- Embeds `Entry::getNext` (Others.h lines 529-537): a zero stored next
reference yields none silently; a nonzero reference that does not resolve
in the pool is a reported consistency violation and also yields none. -/
def Entry.getNextIn (doc : Document) (e : Entry) : NextResult :=
  if e.next = 0 then .chainEnd
  else match doc.lookupEntry e.next with
    | some e2 => .found e2
    | none => .dangling

/-- Embeds `EntryInfo` as populated by the traversal loop (Others.h lines
782, 794-795): staff, measure, layer index, the entry, the elapsed
duration and the actual (tuplet-scaled) duration. -/
structure EntryInfo where
  staff : Int
  measure : Int
  layerIndex : Nat
  entry : Entry
  elapsedDuration : ℚ
  actualDuration : ℚ
deriving DecidableEq, Repr

/-- Embeds Others.h lines 789-792: the cumulative ratio is the product of
the ratios of the active tuplet states (empty product 1). -/
def tupletProduct (ts : List TupletState) : ℚ :=
  (ts.map (fun t => t.ratio)).prod

/-- Embeds Others.h lines 783-786: the tuplet states pushed when the
current entry is reached, in document lookup order. -/
def startingTuplets (doc : Document) (e : Entry) : List TupletState :=
  (doc.tupletsFor e.entnum).map TupletState.ofDef

/-- Embeds Others.h lines 806-813: every active state loses
actual / ratio from its remaining symbolic duration, then the states with
remaining symbolic duration ≤ 0 are removed. -/
def decayTuplets (actual : ℚ) (ts : List TupletState) : List TupletState :=
  (ts.map (fun t =>
      { t with remainingSymbolicDuration :=
          t.remainingSymbolicDuration - actual / t.ratio })).filter
    (fun t => !(decide (t.remainingSymbolicDuration ≤ 0)))

/-- The active tuplet list in effect for the current entry: the carried
list with the entry's starting tuplets appended (Others.h lines 784-786). -/
def stepActive (doc : Document) (e : Entry) (ts : List TupletState) :
    List TupletState :=
  ts ++ startingTuplets doc e

/-- The actual duration of the current entry: nominal fraction times the
active ratio product (Others.h line 793). -/
def stepActual (doc : Document) (e : Entry) (ts : List TupletState) : ℚ :=
  e.calcFraction * tupletProduct (stepActive doc e ts)

/-- The entry info the loop emits for the current entry (Others.h lines
782, 794-795). -/
def stepInfo (doc : Document) (st ms : Int) (li : Nat) (e : Entry)
    (ts : List TupletState) (elapsed : ℚ) : EntryInfo :=
  { staff := st, measure := ms, layerIndex := li, entry := e,
    elapsedDuration := elapsed, actualDuration := stepActual doc e ts }

/-- How a single-layer traversal finished. `ret b` is the C++ return value
`b`; `invalidArgument` is the thrown out-of-range error; `integrityFail`
is a consistency violation escalated to a hard failure in strict mode;
`outOfFuel` marks exhaustion of the step budget of the embedding. -/
inductive IterStatus where
  | ret (b : Bool)
  | invalidArgument
  | integrityFail
  | outOfFuel
deriving DecidableEq, Repr

/-- Observable outcome of a traversal call: the entry infos passed to the
callback in order, the consistency violations reported, the final status,
and (as ghost observations of the loop-local state at exit) the active
tuplet list and the elapsed accumulator. -/
structure IterOutcome where
  emitted : List EntryInfo
  errors : List String
  status : IterStatus
  finalTuplets : List TupletState
  finalElapsed : ℚ
deriving DecidableEq, Repr

/-- Embeds the traversal loop of `GFrameHold::iterateEntries` (Others.h
lines 781-814), one fuel unit per entry visited. Per step: push the
tuplet states starting at this entry, compute the actual duration as the
nominal fraction times the active ratio product, emit the entry info to
the callback (halting with return value false if the callback declines),
stop successfully when the entry number equals the recorded end entry,
otherwise advance the elapsed accumulator, decay and prune the active
tuplets, and follow the chain to the next entry. A chain that ends with a
zero next reference ends the loop; a dangling next reference is a
reported consistency violation (a hard failure when `strict`). -/
def iterLoop (doc : Document) (strict : Bool) (cb : EntryInfo → Bool)
    (st ms : Int) (li frameEnd : Nat) :
    Nat → Entry → List TupletState → ℚ → List EntryInfo → List String →
    IterOutcome
  | 0, _, ts, elapsed, acc, errs =>
    { emitted := acc, errors := errs, status := .outOfFuel,
      finalTuplets := ts, finalElapsed := elapsed }
  | fuel + 1, e, ts, elapsed, acc, errs =>
    let info : EntryInfo := stepInfo doc st ms li e ts elapsed
    if cb info = false then
      { emitted := acc ++ [info], errors := errs, status := .ret false,
        finalTuplets := stepActive doc e ts, finalElapsed := elapsed }
    else if e.entnum = frameEnd then
      { emitted := acc ++ [info], errors := errs, status := .ret true,
        finalTuplets := stepActive doc e ts, finalElapsed := elapsed }
    else
      let elapsed2 := elapsed + stepActual doc e ts
      let act2 := decayTuplets (stepActual doc e ts) (stepActive doc e ts)
      match e.getNextIn doc with
      | .found e2 =>
        iterLoop doc strict cb st ms li frameEnd fuel e2 act2 elapsed2
          (acc ++ [info]) errs
      | .chainEnd =>
        { emitted := acc ++ [info], errors := errs, status := .ret true,
          finalTuplets := act2, finalElapsed := elapsed2 }
      | .dangling =>
        { emitted := acc ++ [info],
          errors := errs ++ ["entry has next entry that does not exist"],
          status := if strict then .integrityFail else .ret true,
          finalTuplets := act2, finalElapsed := elapsed2 }

/-- Embeds `GFrameHold::iterateEntries(LayerIndex, callback)` (Others.h
lines 754-819): throw on an out-of-range layer index, return true on an
empty layer slot, locate the frame incarnation carrying a start entry
(reporting a consistency violation when none exists), seed the elapsed
accumulator with the pre-roll start times of all incarnations, and run
the loop from the resolved first entry. -/
def GFrameHold.iterateEntries (g : GFrameHold) (doc : Document)
    (strict : Bool) (layerIndex : Nat) (cb : EntryInfo → Bool)
    (fuel : Nat) : IterOutcome :=
  if g.frames.length ≤ layerIndex then
    { emitted := [], errors := [], status := .invalidArgument,
      finalTuplets := [], finalElapsed := 0 }
  else
    let frameId := g.frames.getD layerIndex 0
    if frameId = 0 then
      { emitted := [], errors := [], status := .ret true,
        finalTuplets := [], finalElapsed := 0 }
    else
      let incis := doc.frameIncis frameId
      match incis.find? (fun f => f.startEntry != 0) with
      | none =>
        { emitted := [],
          errors := ["gfhold points to nonexistent frame"],
          status := if strict then .integrityFail else .ret true,
          finalTuplets := [], finalElapsed := 0 }
      | some frame =>
        match doc.lookupEntry frame.startEntry with
        | none =>
          { emitted := [], errors := ["gfhold is not iterable"],
            status := if strict then .integrityFail else .ret true,
            finalTuplets := [], finalElapsed := 0 }
        | some firstEntry =>
          let elapsed0 :=
            (incis.map (fun f => mkFraction f.startTime wholeNoteEdu)).sum
          iterLoop doc strict cb g.staff g.measure layerIndex frame.endEntry
            fuel firstEntry [] elapsed0 [] []

/-- Trace of the loop-state semantics: the sequence of (entry, active
tuplet list after pushing that entry's starting tuplets) pairs the loop
visits, following the same state-update rule as the loop itself. -/
def loopTrace (doc : Document) :
    Nat → Entry → List TupletState → List (Entry × List TupletState)
  | 0, _, _ => []
  | fuel + 1, e, ts =>
    (e, stepActive doc e ts) ::
      (match e.getNextIn doc with
       | .found e2 =>
         loopTrace doc fuel e2
           (decayTuplets (stepActual doc e ts) (stepActive doc e ts))
       | _ => [])

/-! Concrete fixtures used by the witnesses and counterexamples below. -/

/-- Fixture: a triplet-of-eighths tuplet definition (3 eighths in the
time of 2), ratio 2/3. -/
def tupA : TupletDef := ⟨3, 512, 2, 512⟩

/-- Fixture: a triplet-of-sixteenths tuplet definition, ratio 2/3. -/
def tupB : TupletDef := ⟨3, 256, 2, 256⟩

/-- Fixture: three chained eighth-note entries. -/
def entN1 : Entry := ⟨1, 512, 2⟩

/-- Fixture: second entry of the nested-tuplet chain. -/
def entN2 : Entry := ⟨2, 512, 3⟩

/-- Fixture: last entry of the nested-tuplet chain. -/
def entN3 : Entry := ⟨3, 512, 0⟩

/-- Fixture: a document whose first entry starts two tuplets at once. -/
def docNested : Document where
  entries := [entN1, entN2, entN3]
  frameIncis := fun fid => if fid = 4 then [⟨1, 3, 0⟩] else []
  tupletsFor := fun n => if n = 1 then [tupA, tupB] else []

/-- Fixture: frame holder for the nested-tuplet document. -/
def gfhNested : GFrameHold := ⟨some 0, 0, [4, 0, 0, 0], 1, 1⟩

/-- Fixture: a quintuplet definition, 5 quarters in the time of 4,
ratio 4/5. -/
def tupQ : TupletDef := ⟨5, 1024, 4, 1024⟩

/-- Fixture: three chained whole-note entries. -/
def entQ1 : Entry := ⟨1, 4096, 2⟩

/-- Fixture: second whole-note entry. -/
def entQ2 : Entry := ⟨2, 4096, 3⟩

/-- Fixture: third whole-note entry. -/
def entQ3 : Entry := ⟨3, 4096, 0⟩

/-- Fixture: a document with a quintuplet starting at entry 1. -/
def docQuint : Document where
  entries := [entQ1, entQ2, entQ3]
  frameIncis := fun fid => if fid = 5 then [⟨1, 3, 0⟩] else []
  tupletsFor := fun n => if n = 1 then [tupQ] else []

/-- Fixture: a single entry whose chain ends (zero next reference). -/
def eC4 : Entry := ⟨1, 1024, 0⟩

/-- Fixture: a document whose frame records end entry 2 but whose chain
from entry 1 ends immediately. -/
def docC4 : Document where
  entries := [eC4]
  frameIncis := fun fid => if fid = 7 then [⟨1, 2, 0⟩] else []
  tupletsFor := fun _ => []

/-- Fixture: frame holder pointing at the truncated-chain frame. -/
def gfhC4 : GFrameHold := ⟨some 0, 0, [7, 0, 0, 0], 3, 915⟩

/-- Fixture: an entry whose next reference is nonzero but unresolvable. -/
def entD1 : Entry := ⟨1, 1024, 99⟩

/-- Fixture: a document with a dangling next reference. -/
def docDangle : Document where
  entries := [entD1]
  frameIncis := fun fid => if fid = 7 then [⟨1, 2, 0⟩] else []
  tupletsFor := fun _ => []

/-- Fixture: a document whose only frame incarnation carries no start
entry marker. -/
def docC5 : Document where
  entries := []
  frameIncis := fun fid => if fid = 9 then [⟨0, 5, 128⟩] else []
  tupletsFor := fun _ => []

/-- Fixture: frame holder pointing at the start-marker-free frame. -/
def gfhC5 : GFrameHold := ⟨none, 11, [9, 0, 0, 0], 1, 1⟩

/-- Fixture: a frame group whose non-primary incarnation carries a
quarter-note pre-roll start time. -/
def docPre : Document where
  entries := [⟨1, 2048, 0⟩]
  frameIncis := fun fid => if fid = 6 then [⟨0, 0, 1024⟩, ⟨1, 1, 0⟩] else []
  tupletsFor := fun _ => []

/-- Fixture: frame holder for the pre-roll document. -/
def gfhPre : GFrameHold := ⟨some 0, 0, [6, 0, 0, 0], 2, 7⟩

/-- Fixture: a frame holder with both clef fields set. -/
def gfhBoth : GFrameHold := ⟨some 0, 123, [0, 0, 0, 0], 3, 915⟩

/-- Fixture: a frame holder with neither clef field set. -/
def gfhNeither : GFrameHold := ⟨none, 0, [0, 0, 0, 0], 3, 915⟩

/-! Helper lemmas about the traversal loop. -/

/-- Unfolding: the loop halts when the callback declines the emitted
entry info, without bookkeeping. -/
theorem iterLoop_stop_callback (doc : Document) (strict : Bool)
    (cb : EntryInfo → Bool) (st ms : Int) (li fe fuel : Nat) (e : Entry)
    (ts : List TupletState) (elapsed : ℚ) (acc : List EntryInfo)
    (errs : List String)
    (hcb : cb (stepInfo doc st ms li e ts elapsed) = false) :
    iterLoop doc strict cb st ms li fe (fuel + 1) e ts elapsed acc errs =
      { emitted := acc ++ [stepInfo doc st ms li e ts elapsed],
        errors := errs, status := .ret false,
        finalTuplets := stepActive doc e ts, finalElapsed := elapsed } := by
  simp [iterLoop, hcb]

/-- Unfolding: the loop stops right after emission when the current entry
is the recorded end entry. -/
theorem iterLoop_stop_end (doc : Document) (strict : Bool)
    (cb : EntryInfo → Bool) (st ms : Int) (li fe fuel : Nat) (e : Entry)
    (ts : List TupletState) (elapsed : ℚ) (acc : List EntryInfo)
    (errs : List String)
    (hcb : cb (stepInfo doc st ms li e ts elapsed) = true)
    (hend : e.entnum = fe) :
    iterLoop doc strict cb st ms li fe (fuel + 1) e ts elapsed acc errs =
      { emitted := acc ++ [stepInfo doc st ms li e ts elapsed],
        errors := errs, status := .ret true,
        finalTuplets := stepActive doc e ts, finalElapsed := elapsed } := by
  simp [iterLoop, hcb, hend]

/-- Unfolding: the loop recurses on the next chain entry with the decayed
tuplets and the advanced elapsed accumulator. -/
theorem iterLoop_step (doc : Document) (strict : Bool)
    (cb : EntryInfo → Bool) (st ms : Int) (li fe fuel : Nat) (e e2 : Entry)
    (ts : List TupletState) (elapsed : ℚ) (acc : List EntryInfo)
    (errs : List String)
    (hcb : cb (stepInfo doc st ms li e ts elapsed) = true)
    (hne : e.entnum ≠ fe)
    (hnext : e.getNextIn doc = .found e2) :
    iterLoop doc strict cb st ms li fe (fuel + 1) e ts elapsed acc errs =
      iterLoop doc strict cb st ms li fe fuel e2
        (decayTuplets (stepActual doc e ts) (stepActive doc e ts))
        (elapsed + stepActual doc e ts)
        (acc ++ [stepInfo doc st ms li e ts elapsed]) errs := by
  simp [iterLoop, hcb, hne, hnext]

/-- Unfolding: the loop ends quietly when the chain ends with a zero next
reference before the end entry. -/
theorem iterLoop_chainEnd (doc : Document) (strict : Bool)
    (cb : EntryInfo → Bool) (st ms : Int) (li fe fuel : Nat) (e : Entry)
    (ts : List TupletState) (elapsed : ℚ) (acc : List EntryInfo)
    (errs : List String)
    (hcb : cb (stepInfo doc st ms li e ts elapsed) = true)
    (hne : e.entnum ≠ fe)
    (hnext : e.getNextIn doc = .chainEnd) :
    iterLoop doc strict cb st ms li fe (fuel + 1) e ts elapsed acc errs =
      { emitted := acc ++ [stepInfo doc st ms li e ts elapsed],
        errors := errs, status := .ret true,
        finalTuplets :=
          decayTuplets (stepActual doc e ts) (stepActive doc e ts),
        finalElapsed := elapsed + stepActual doc e ts } := by
  simp [iterLoop, hcb, hne, hnext]

/-- Unfolding: a dangling next reference reports a consistency violation
and ends the loop, failing hard in strict mode. -/
theorem iterLoop_dangling (doc : Document) (strict : Bool)
    (cb : EntryInfo → Bool) (st ms : Int) (li fe fuel : Nat) (e : Entry)
    (ts : List TupletState) (elapsed : ℚ) (acc : List EntryInfo)
    (errs : List String)
    (hcb : cb (stepInfo doc st ms li e ts elapsed) = true)
    (hne : e.entnum ≠ fe)
    (hnext : e.getNextIn doc = .dangling) :
    iterLoop doc strict cb st ms li fe (fuel + 1) e ts elapsed acc errs =
      { emitted := acc ++ [stepInfo doc st ms li e ts elapsed],
        errors := errs ++ ["entry has next entry that does not exist"],
        status := if strict then .integrityFail else .ret true,
        finalTuplets :=
          decayTuplets (stepActual doc e ts) (stepActive doc e ts),
        finalElapsed := elapsed + stepActual doc e ts } := by
  simp [iterLoop, hcb, hne, hnext]

/-- The emitted list always extends the accumulator. -/
theorem iterLoop_emitted_eq (doc : Document) (strict : Bool)
    (cb : EntryInfo → Bool) (st ms : Int) (li fe : Nat) (fuel : Nat) :
    ∀ (e : Entry) (ts : List TupletState) (elapsed : ℚ)
      (acc : List EntryInfo) (errs : List String),
    (iterLoop doc strict cb st ms li fe fuel e ts elapsed acc errs).emitted =
      acc ++
        (iterLoop doc strict cb st ms li fe fuel e ts elapsed [] []).emitted := by
  induction fuel with
  | zero => intro e ts elapsed acc errs; simp [iterLoop]
  | succ fuel ih =>
    intro e ts elapsed acc errs
    cases hcb : cb (stepInfo doc st ms li e ts elapsed) with
    | false => simp [iterLoop_stop_callback _ _ _ _ _ _ _ _ _ _ _ _ _ hcb]
    | true =>
      by_cases hne : e.entnum = fe
      · simp [iterLoop_stop_end _ _ _ _ _ _ _ _ _ _ _ _ _ hcb hne]
      · cases hnext : e.getNextIn doc with
        | found e2 =>
          rw [iterLoop_step _ _ _ _ _ _ _ _ _ _ _ _ _ _ hcb hne hnext,
            iterLoop_step _ _ _ _ _ _ _ _ _ _ _ _ _ _ hcb hne hnext,
            ih e2 _ _ (acc ++ _) errs, ih e2 _ _ ([] ++ _) []]
          simp
        | chainEnd =>
          simp [iterLoop_chainEnd _ _ _ _ _ _ _ _ _ _ _ _ _ hcb hne hnext]
        | dangling =>
          simp [iterLoop_dangling _ _ _ _ _ _ _ _ _ _ _ _ _ hcb hne hnext]

/-- Every loop step emits the step info of its state right after the
accumulator. -/
theorem iterLoop_emits_head (doc : Document) (strict : Bool)
    (cb : EntryInfo → Bool) (st ms : Int) (li fe fuel : Nat) (e : Entry)
    (ts : List TupletState) (elapsed : ℚ) (acc : List EntryInfo)
    (errs : List String) :
    (iterLoop doc strict cb st ms li fe (fuel + 1) e ts elapsed
        acc errs).emitted[acc.length]? =
      some (stepInfo doc st ms li e ts elapsed) := by
  cases hcb : cb (stepInfo doc st ms li e ts elapsed) with
  | false =>
    rw [iterLoop_stop_callback _ _ _ _ _ _ _ _ _ _ _ _ _ hcb]
    simp [List.getElem?_append_right]
  | true =>
    by_cases hne : e.entnum = fe
    · rw [iterLoop_stop_end _ _ _ _ _ _ _ _ _ _ _ _ _ hcb hne]
      simp [List.getElem?_append_right]
    · cases hnext : e.getNextIn doc with
      | found e2 =>
        rw [iterLoop_step _ _ _ _ _ _ _ _ _ _ _ _ _ _ hcb hne hnext,
          iterLoop_emitted_eq]
        rw [List.append_assoc, List.getElem?_append_right (le_refl _)]
        simp
      | chainEnd =>
        rw [iterLoop_chainEnd _ _ _ _ _ _ _ _ _ _ _ _ _ hcb hne hnext]
        simp [List.getElem?_append_right]
      | dangling =>
        rw [iterLoop_dangling _ _ _ _ _ _ _ _ _ _ _ _ _ hcb hne hnext]
        simp [List.getElem?_append_right]

/-- Every emitted entry corresponds to the loop-state trace position of
its index: its actual duration is the entry nominal duration times the
product of the ratios of the tuplets active there. -/
theorem iterLoop_emitted_trace (doc : Document) (strict : Bool)
    (cb : EntryInfo → Bool) (st ms : Int) (li fe : Nat) (fuel : Nat) :
    ∀ (e : Entry) (ts : List TupletState) (elapsed : ℚ) (n : Nat)
      (info : EntryInfo),
    (iterLoop doc strict cb st ms li fe fuel e ts elapsed [] []).emitted[n]? =
        some info →
    ∃ ent act, (loopTrace doc fuel e ts)[n]? = some (ent, act) ∧
      info.entry = ent ∧
      info.actualDuration = ent.calcFraction * tupletProduct act := by
  induction fuel with
  | zero => intro e ts elapsed n info h; simp [iterLoop] at h
  | succ fuel ih =>
    intro e ts elapsed n info h
    cases hcb : cb (stepInfo doc st ms li e ts elapsed) with
    | false =>
      rw [iterLoop_stop_callback _ _ _ _ _ _ _ _ _ _ _ _ _ hcb] at h
      cases n with
      | zero =>
        simp at h
        subst h
        exact ⟨e, stepActive doc e ts, by simp [loopTrace], rfl, rfl⟩
      | succ n => simp at h
    | true =>
      by_cases hne : e.entnum = fe
      · rw [iterLoop_stop_end _ _ _ _ _ _ _ _ _ _ _ _ _ hcb hne] at h
        cases n with
        | zero =>
          simp at h
          subst h
          exact ⟨e, stepActive doc e ts, by simp [loopTrace], rfl, rfl⟩
        | succ n => simp at h
      · cases hnext : e.getNextIn doc with
        | found e2 =>
          rw [iterLoop_step _ _ _ _ _ _ _ _ _ _ _ _ _ _ hcb hne hnext,
            iterLoop_emitted_eq] at h
          cases n with
          | zero =>
            simp at h
            subst h
            refine ⟨e, stepActive doc e ts, ?_, rfl, rfl⟩
            simp [loopTrace]
          | succ n =>
            simp only [List.nil_append, List.singleton_append,
              List.getElem?_cons_succ] at h
            obtain ⟨ent, act, htr, h1, h2⟩ := ih e2 _ _ n info h
            refine ⟨ent, act, ?_, h1, h2⟩
            simp only [loopTrace, hnext, List.getElem?_cons_succ]
            exact htr
        | chainEnd =>
          rw [iterLoop_chainEnd _ _ _ _ _ _ _ _ _ _ _ _ _ hcb hne hnext] at h
          cases n with
          | zero =>
            simp at h
            subst h
            exact ⟨e, stepActive doc e ts, by simp [loopTrace], rfl, rfl⟩
          | succ n => simp at h
        | dangling =>
          rw [iterLoop_dangling _ _ _ _ _ _ _ _ _ _ _ _ _ hcb hne hnext] at h
          cases n with
          | zero =>
            simp at h
            subst h
            exact ⟨e, stepActive doc e ts, by simp [loopTrace], rfl, rfl⟩
          | succ n => simp at h

/-- The loop emits at most one entry info per fuel unit. -/
theorem iterLoop_emitted_length (doc : Document) (strict : Bool)
    (cb : EntryInfo → Bool) (st ms : Int) (li fe : Nat) (fuel : Nat) :
    ∀ (e : Entry) (ts : List TupletState) (elapsed : ℚ)
      (acc : List EntryInfo) (errs : List String),
    (iterLoop doc strict cb st ms li fe fuel e ts elapsed
        acc errs).emitted.length ≤ acc.length + fuel := by
  induction fuel with
  | zero => intro e ts elapsed acc errs; simp [iterLoop]
  | succ fuel ih =>
    intro e ts elapsed acc errs
    cases hcb : cb (stepInfo doc st ms li e ts elapsed) with
    | false =>
      rw [iterLoop_stop_callback _ _ _ _ _ _ _ _ _ _ _ _ _ hcb]
      simp
    | true =>
      by_cases hne : e.entnum = fe
      · rw [iterLoop_stop_end _ _ _ _ _ _ _ _ _ _ _ _ _ hcb hne]
        simp
      · cases hnext : e.getNextIn doc with
        | found e2 =>
          rw [iterLoop_step _ _ _ _ _ _ _ _ _ _ _ _ _ _ hcb hne hnext]
          have := ih e2 (decayTuplets (stepActual doc e ts)
            (stepActive doc e ts)) (elapsed + stepActual doc e ts)
            (acc ++ [stepInfo doc st ms li e ts elapsed]) errs
          simp at this ⊢
          omega
        | chainEnd =>
          rw [iterLoop_chainEnd _ _ _ _ _ _ _ _ _ _ _ _ _ hcb hne hnext]
          simp
        | dangling =>
          rw [iterLoop_dangling _ _ _ _ _ _ _ _ _ _ _ _ _ hcb hne hnext]
          simp

/-- Unfold lemma: a successful frame resolution runs the loop seeded with
the pre-roll sum. -/
theorem iterateEntries_resolved (g : GFrameHold) (doc : Document)
    (strict : Bool) (li : Nat) (cb : EntryInfo → Bool) (fuel : Nat)
    (frame : Frame) (e1 : Entry)
    (hlen : li < g.frames.length)
    (hfid : g.frames.getD li 0 ≠ 0)
    (hfind : (doc.frameIncis (g.frames.getD li 0)).find?
        (fun f => f.startEntry != 0) = some frame)
    (hfirst : doc.lookupEntry frame.startEntry = some e1) :
    g.iterateEntries doc strict li cb fuel =
      iterLoop doc strict cb g.staff g.measure li frame.endEntry fuel e1 []
        (((doc.frameIncis (g.frames.getD li 0)).map
          (fun f => mkFraction f.startTime wholeNoteEdu)).sum) [] [] := by
  simp only [GFrameHold.iterateEntries]
  rw [if_neg (by omega), if_neg hfid, hfind]
  simp only [hfirst]

/-- Membership in the decayed tuplet list: exactly the active states
whose decreased remaining symbolic duration is still positive. -/
theorem mem_decayTuplets (actual : ℚ) (ts : List TupletState)
    (s : TupletState) :
    s ∈ decayTuplets actual ts ↔
      ∃ t ∈ ts,
        s = { t with remainingSymbolicDuration :=
                t.remainingSymbolicDuration - actual / t.ratio } ∧
        0 < t.remainingSymbolicDuration - actual / t.ratio := by
  simp only [decayTuplets, List.mem_filter, List.mem_map]
  constructor
  · rintro ⟨⟨t, ht, rfl⟩, hp⟩
    refine ⟨t, ht, rfl, ?_⟩
    simpa using hp
  · rintro ⟨t, ht, rfl, hp⟩
    exact ⟨⟨t, ht, rfl⟩, by simpa using hp⟩

/-- Ratio of two duration fractions over the same whole-note denominator
equals the direct fraction, for a nonzero denominator product. -/
theorem mkFraction_div_whole (a b : Int) (hb : b ≠ 0) :
    mkFraction a b = mkFraction a wholeNoteEdu / mkFraction b wholeNoteEdu := by
  have hb2 : (b : ℚ) ≠ 0 := Int.cast_ne_zero.mpr hb
  have hw : ((wholeNoteEdu : Int) : ℚ) ≠ 0 := by norm_num [wholeNoteEdu]
  unfold mkFraction
  rw [div_div_div_cancel_right₀]
  exact hw

/-! Claim theorems. -/

/-- C1: every entry emitted by single-layer traversal carries an actual
duration equal to its nominal duration (tick duration as a fraction of a
whole note) times the product of the ratios of the tuplets active at its
trace position (empty product 1); with two simultaneously started tuplets
the scaling is by both ratios multiplied, exactly. -/
theorem C1_actual_duration_is_nominal_times_active_ratio_product
    (g : GFrameHold) (doc : Document) (strict : Bool) (li : Nat)
    (cb : EntryInfo → Bool) (fuel : Nat) (frame : Frame) (e1 : Entry)
    (n : Nat) (info : EntryInfo)
    (hlen : li < g.frames.length)
    (hfid : g.frames.getD li 0 ≠ 0)
    (hfind : (doc.frameIncis (g.frames.getD li 0)).find?
        (fun f => f.startEntry != 0) = some frame)
    (hfirst : doc.lookupEntry frame.startEntry = some e1)
    (h : (g.iterateEntries doc strict li cb fuel).emitted[n]? = some info) :
    ∃ ent act, (loopTrace doc fuel e1 [])[n]? = some (ent, act) ∧
      info.entry = ent ∧
      info.actualDuration = ent.calcFraction * tupletProduct act := by
  rw [iterateEntries_resolved g doc strict li cb fuel frame e1 hlen hfid
    hfind hfirst] at h
  exact iterLoop_emitted_trace doc strict cb g.staff g.measure li
    frame.endEntry fuel e1 [] _ n info h

/-- C1 witness: in the fixture where entry 1 starts the tuplets `tupA`
and `tupB` together, the first emitted entry's actual duration equals
nominal times the product of both ratios. -/
theorem C1_witness :
    ((gfhNested.iterateEntries docNested true 0 (fun _ => true) 10).emitted[0]?
        = some (stepInfo docNested 1 1 0 entN1 []
            (((docNested.frameIncis 4).map
              (fun f => mkFraction f.startTime wholeNoteEdu)).sum))) ∧
    (stepInfo docNested 1 1 0 entN1 [] 0).actualDuration =
      entN1.calcFraction * (tupA.calcRatio * tupB.calcRatio) ∧
    ∃ ent act, (loopTrace docNested 10 entN1 [])[0]? = some (ent, act) ∧
      (stepInfo docNested 1 1 0 entN1 [] 0).entry = ent ∧
      (stepInfo docNested 1 1 0 entN1 [] 0).actualDuration =
        ent.calcFraction * tupletProduct act := by
  have hemit : (gfhNested.iterateEntries docNested true 0
      (fun _ => true) 10).emitted[0]?
      = some (stepInfo docNested 1 1 0 entN1 []
          (((docNested.frameIncis 4).map
            (fun f => mkFraction f.startTime wholeNoteEdu)).sum)) := by
    rw [iterateEntries_resolved gfhNested docNested true 0 (fun _ => true) 10
      ⟨1, 3, 0⟩ entN1 (by decide) (by decide) (by rfl) (by rfl)]
    exact iterLoop_emits_head docNested true (fun _ => true) 1 1 0 3 9 entN1
      [] _ [] []
  refine ⟨hemit, ?_, ?_⟩
  · simp [stepInfo, stepActual, stepActive, startingTuplets, tupletProduct,
      TupletState.ofDef, Entry.calcFraction, TupletDef.calcRatio, mkFraction,
      docNested, entN1, tupA, tupB]
  · obtain ⟨ent, act, h1, h2, h3⟩ :=
      C1_actual_duration_is_nominal_times_active_ratio_product
        gfhNested docNested true 0 (fun _ => true) 10 ⟨1, 3, 0⟩ entN1 0
        (stepInfo docNested 1 1 0 entN1 []
          (((docNested.frameIncis 4).map
            (fun f => mkFraction f.startTime wholeNoteEdu)).sum))
        (by decide) (by decide) (by rfl) (by rfl) hemit
    exact ⟨ent, act, h1, h2, h3⟩

/-- C2: when the current entry is the recorded end entry (and the
callback accepts it), the loop stops right after emission: the outcome
is successful, the elapsed accumulator is not advanced and the active
tuplets are not decayed. -/
theorem C2_end_entry_stops_before_bookkeeping (doc : Document)
    (strict : Bool) (cb : EntryInfo → Bool) (st ms : Int)
    (li fe fuel : Nat) (e : Entry) (ts : List TupletState) (elapsed : ℚ)
    (acc : List EntryInfo) (errs : List String)
    (hcb : cb (stepInfo doc st ms li e ts elapsed) = true)
    (hend : e.entnum = fe) :
    iterLoop doc strict cb st ms li fe (fuel + 1) e ts elapsed acc errs =
      { emitted := acc ++ [stepInfo doc st ms li e ts elapsed],
        errors := errs, status := .ret true,
        finalTuplets := stepActive doc e ts, finalElapsed := elapsed } :=
  iterLoop_stop_end doc strict cb st ms li fe fuel e ts elapsed acc errs
    hcb hend

/-- C2 witness: stopping at the end entry of the nested-tuplet fixture
leaves the elapsed accumulator and the active tuplets untouched. -/
theorem C2_witness :
    iterLoop docNested true (fun _ => true) 1 1 0 3 6 entN3 [] (5/8) [] [] =
      { emitted := [stepInfo docNested 1 1 0 entN3 [] (5/8)],
        errors := [], status := .ret true,
        finalTuplets := stepActive docNested entN3 [],
        finalElapsed := 5/8 } := by
  have h := C2_end_entry_stops_before_bookkeeping docNested true
    (fun _ => true) 1 1 0 3 5 entN3 [] (5/8) [] [] (by rfl) (by decide)
  simpa using h

/-- C3: after a non-terminal emitted entry the loop advances the elapsed
accumulator by the actual duration, decreases every active tuplet's
remaining symbolic duration by actual / ratio, and keeps exactly the
tuplets whose decreased remaining symbolic duration is still positive
(a tuplet completing exactly at a boundary is removed). -/
theorem C3_bookkeeping_after_non_terminal_entry (doc : Document)
    (strict : Bool) (cb : EntryInfo → Bool) (st ms : Int)
    (li fe fuel : Nat) (e e2 : Entry) (ts : List TupletState) (elapsed : ℚ)
    (acc : List EntryInfo) (errs : List String)
    (hcb : cb (stepInfo doc st ms li e ts elapsed) = true)
    (hne : e.entnum ≠ fe)
    (hnext : e.getNextIn doc = .found e2) :
    (iterLoop doc strict cb st ms li fe (fuel + 1) e ts elapsed acc errs =
      iterLoop doc strict cb st ms li fe fuel e2
        (decayTuplets (stepActual doc e ts) (stepActive doc e ts))
        (elapsed + stepActual doc e ts)
        (acc ++ [stepInfo doc st ms li e ts elapsed]) errs) ∧
    ∀ s, s ∈ decayTuplets (stepActual doc e ts) (stepActive doc e ts) ↔
      ∃ t ∈ stepActive doc e ts,
        s = { t with remainingSymbolicDuration :=
                t.remainingSymbolicDuration -
                  stepActual doc e ts / t.ratio } ∧
        0 < t.remainingSymbolicDuration - stepActual doc e ts / t.ratio :=
  ⟨iterLoop_step doc strict cb st ms li fe fuel e e2 ts elapsed acc errs
      hcb hne hnext,
    fun s => mem_decayTuplets (stepActual doc e ts) (stepActive doc e ts) s⟩

/-- C3 witness: consuming the first whole note under the quintuplet
fixture recurses with the decayed tuplet list and advanced accumulator,
and the decayed list holds exactly the still-positive remainders. -/
theorem C3_witness :
    (iterLoop docQuint true (fun _ => true) 1 1 0 3 6 entQ1 [] 0 [] [] =
      iterLoop docQuint true (fun _ => true) 1 1 0 3 5 entQ2
        (decayTuplets (stepActual docQuint entQ1 [])
          (stepActive docQuint entQ1 []))
        (0 + stepActual docQuint entQ1 [])
        ([stepInfo docQuint 1 1 0 entQ1 [] 0]) []) ∧
    ∀ s, s ∈ decayTuplets (stepActual docQuint entQ1 [])
        (stepActive docQuint entQ1 []) ↔
      ∃ t ∈ stepActive docQuint entQ1 [],
        s = { t with remainingSymbolicDuration :=
                t.remainingSymbolicDuration -
                  stepActual docQuint entQ1 [] / t.ratio } ∧
        0 < t.remainingSymbolicDuration -
          stepActual docQuint entQ1 [] / t.ratio := by
  have h := C3_bookkeeping_after_non_terminal_entry docQuint true
    (fun _ => true) 1 1 0 3 5 entQ1 entQ2 [] 0 [] [] (by rfl) (by decide)
    (by rfl)
  simpa using h

/-- C4 counterexample: in strict mode, with a chain that ends (zero next
reference) before the recorded end entry 2, traversal returns success,
reports no consistency violation, and emits the one visited entry;
the claim that it reports a violation and fails hard is false. -/
theorem C4_counterexample :
    (gfhC4.iterateEntries docC4 true 0 (fun _ => true) 10).errors = [] ∧
    (gfhC4.iterateEntries docC4 true 0 (fun _ => true) 10).status =
      .ret true ∧
    (gfhC4.iterateEntries docC4 true 0 (fun _ => true) 10).emitted.length
      = 1 := by
  refine ⟨?_, ?_, ?_⟩ <;> rfl

/-- C4 amended: if the chain runs out with a zero next reference before
the end entry, traversal stops silently with a successful status and no
reported violation; if it runs out with a dangling (nonzero,
unresolvable) next reference, the violation is reported and traversal
stops, failing hard in strict mode; and the loop visits at most one
entry per fuel unit. -/
theorem C4_amended_chain_exhaustion (doc : Document) (strict : Bool)
    (cb : EntryInfo → Bool) (st ms : Int) (li fe fuel : Nat) (e : Entry)
    (ts : List TupletState) (elapsed : ℚ) (acc : List EntryInfo)
    (errs : List String)
    (hcb : cb (stepInfo doc st ms li e ts elapsed) = true)
    (hne : e.entnum ≠ fe) :
    (e.getNextIn doc = .chainEnd →
      iterLoop doc strict cb st ms li fe (fuel + 1) e ts elapsed acc errs =
        { emitted := acc ++ [stepInfo doc st ms li e ts elapsed],
          errors := errs, status := .ret true,
          finalTuplets :=
            decayTuplets (stepActual doc e ts) (stepActive doc e ts),
          finalElapsed := elapsed + stepActual doc e ts }) ∧
    (e.getNextIn doc = .dangling →
      iterLoop doc strict cb st ms li fe (fuel + 1) e ts elapsed acc errs =
        { emitted := acc ++ [stepInfo doc st ms li e ts elapsed],
          errors := errs ++ ["entry has next entry that does not exist"],
          status := if strict then .integrityFail else .ret true,
          finalTuplets :=
            decayTuplets (stepActual doc e ts) (stepActive doc e ts),
          finalElapsed := elapsed + stepActual doc e ts }) ∧
    (iterLoop doc strict cb st ms li fe (fuel + 1) e ts elapsed
        acc errs).emitted.length ≤ acc.length + (fuel + 1) :=
  ⟨iterLoop_chainEnd doc strict cb st ms li fe fuel e ts elapsed acc errs
      hcb hne,
    iterLoop_dangling doc strict cb st ms li fe fuel e ts elapsed acc errs
      hcb hne,
    iterLoop_emitted_length doc strict cb st ms li fe (fuel + 1) e ts
      elapsed acc errs⟩

/-- C4 witness: a dangling next reference in strict mode reports the
violation and fails hard. -/
theorem C4_witness :
    iterLoop docDangle true (fun _ => true) 3 915 0 2 4 entD1 [] 0 [] [] =
      { emitted := [stepInfo docDangle 3 915 0 entD1 [] 0],
        errors := ["entry has next entry that does not exist"],
        status := .integrityFail,
        finalTuplets :=
          decayTuplets (stepActual docDangle entD1 [])
            (stepActive docDangle entD1 []),
        finalElapsed := 0 + stepActual docDangle entD1 [] } := by
  have h := (C4_amended_chain_exhaustion docDangle true (fun _ => true)
    3 915 0 2 3 entD1 [] 0 [] [] (by rfl) (by decide)).2.1 (by rfl)
  simpa using h

/-- C5: when no incarnation of the layer's frame id carries a start
entry marker, a consistency violation is reported and nothing is
emitted; in strict mode the call fails hard, in default mode it returns
success with the violation recorded. -/
theorem C5_no_start_marker_fails (g : GFrameHold) (doc : Document)
    (li : Nat) (cb : EntryInfo → Bool) (fuel : Nat)
    (hlen : li < g.frames.length)
    (hfid : g.frames.getD li 0 ≠ 0)
    (hfind : (doc.frameIncis (g.frames.getD li 0)).find?
        (fun f => f.startEntry != 0) = none) :
    (g.iterateEntries doc true li cb fuel).status = .integrityFail ∧
    (g.iterateEntries doc true li cb fuel).errors =
      ["gfhold points to nonexistent frame"] ∧
    (g.iterateEntries doc true li cb fuel).emitted = [] ∧
    (g.iterateEntries doc false li cb fuel).status = .ret true ∧
    (g.iterateEntries doc false li cb fuel).errors =
      ["gfhold points to nonexistent frame"] ∧
    (g.iterateEntries doc false li cb fuel).emitted = [] := by
  have key : ∀ strict : Bool, g.iterateEntries doc strict li cb fuel =
      { emitted := [], errors := ["gfhold points to nonexistent frame"],
        status := if strict then .integrityFail else .ret true,
        finalTuplets := [], finalElapsed := 0 } := by
    intro strict
    simp only [GFrameHold.iterateEntries]
    rw [if_neg (by omega), if_neg hfid, hfind]
  rw [key true, key false]
  simp

/-- C5 witness: the start-marker-free fixture reports the violation and
fails hard in strict mode. -/
theorem C5_witness :
    (gfhC5.iterateEntries docC5 true 0 (fun _ => true) 10).status =
      .integrityFail ∧
    (gfhC5.iterateEntries docC5 true 0 (fun _ => true) 10).errors =
      ["gfhold points to nonexistent frame"] ∧
    (gfhC5.iterateEntries docC5 true 0 (fun _ => true) 10).emitted = [] ∧
    (gfhC5.iterateEntries docC5 false 0 (fun _ => true) 10).status =
      .ret true ∧
    (gfhC5.iterateEntries docC5 false 0 (fun _ => true) 10).errors =
      ["gfhold points to nonexistent frame"] ∧
    (gfhC5.iterateEntries docC5 false 0 (fun _ => true) 10).emitted = [] :=
  C5_no_start_marker_fails gfhC5 docC5 0 (fun _ => true) 10
    (by decide) (by decide) (by rfl)

/-- C6: the first emitted entry info carries an elapsed duration equal
to the sum, over all incarnations of the frame group, of the start time
converted to a fraction of a whole note. -/
theorem C6_first_elapsed_equals_preroll_sum (g : GFrameHold)
    (doc : Document) (strict : Bool) (li : Nat) (cb : EntryInfo → Bool)
    (fuel : Nat) (frame : Frame) (e1 : Entry)
    (hlen : li < g.frames.length)
    (hfid : g.frames.getD li 0 ≠ 0)
    (hfind : (doc.frameIncis (g.frames.getD li 0)).find?
        (fun f => f.startEntry != 0) = some frame)
    (hfirst : doc.lookupEntry frame.startEntry = some e1) :
    ∃ info,
      (g.iterateEntries doc strict li cb (fuel + 1)).emitted[0]? =
        some info ∧
      info.elapsedDuration =
        ((doc.frameIncis (g.frames.getD li 0)).map
          (fun f => mkFraction f.startTime wholeNoteEdu)).sum := by
  rw [iterateEntries_resolved g doc strict li cb (fuel + 1) frame e1 hlen
    hfid hfind hfirst]
  exact ⟨_, iterLoop_emits_head doc strict cb g.staff g.measure li
      frame.endEntry fuel e1 [] _ [] [], rfl⟩

/-- C6 witness: a nonzero start time on the non-primary incarnation of
the pre-roll fixture makes the first emitted elapsed duration 1/4, not
zero. -/
theorem C6_witness :
    ∃ info,
      (gfhPre.iterateEntries docPre true 0 (fun _ => true) 10).emitted[0]? =
        some info ∧
      info.elapsedDuration = 1/4 := by
  obtain ⟨info, h1, h2⟩ := C6_first_elapsed_equals_preroll_sum gfhPre docPre
    true 0 (fun _ => true) 9 ⟨1, 1, 0⟩ ⟨1, 2048, 0⟩
    (by decide) (by decide) (by rfl) (by rfl)
  refine ⟨info, h1, ?_⟩
  rw [h2]
  norm_num [docPre, gfhPre, mkFraction, wholeNoteEdu]

/-- C7: a layer index beyond the four layer slots makes single-layer
traversal fail with the invalid-argument status without emitting
anything. -/
theorem C7_out_of_range_layer_invalid_argument (g : GFrameHold)
    (doc : Document) (strict : Bool) (li : Nat) (cb : EntryInfo → Bool)
    (fuel : Nat)
    (hlen : g.frames.length = 4) (hge : 4 ≤ li) :
    (g.iterateEntries doc strict li cb fuel).status = .invalidArgument ∧
    (g.iterateEntries doc strict li cb fuel).emitted = [] := by
  have hle : g.frames.length ≤ li := by omega
  constructor <;> simp [GFrameHold.iterateEntries, hle]

/-- C7 witness: layer index 7 on a four-slot frame holder fails with the
invalid-argument status and no emission. -/
theorem C7_witness :
    (gfhPre.iterateEntries docPre true 7 (fun _ => true) 10).status =
      .invalidArgument ∧
    (gfhPre.iterateEntries docPre true 7 (fun _ => true) 10).emitted = [] :=
  C7_out_of_range_layer_invalid_argument gfhPre docPre true 7
    (fun _ => true) 10 (by decide) (by decide)

/-- C8: the integrity check reports a clef violation when both the
single clef id and the clef list id are set and when neither is set, and
reports no clef violation when exactly one of them is set. -/
theorem C8_clef_exclusivity (g : GFrameHold) :
    ((g.clefListId ≠ 0 ∧ g.clefId.isSome) → g.integrityErrors ≠ []) ∧
    ((g.clefListId = 0 ∧ g.clefId.isNone) → g.integrityErrors ≠ []) ∧
    ((g.clefListId ≠ 0 ∧ g.clefId.isNone) ∨
        (g.clefListId = 0 ∧ g.clefId.isSome) →
      g.integrityErrors = []) := by
  refine ⟨?_, ?_, ?_⟩
  · rintro ⟨h1, h2⟩
    simp [GFrameHold.integrityErrors, h1, h2]
  · rintro ⟨h1, h2⟩
    simp [GFrameHold.integrityErrors, h1, h2]
  · rintro (⟨h1, h2⟩ | ⟨h1, h2⟩)
    · simp [GFrameHold.integrityErrors, h1,
        Option.isNone_iff_eq_none.mp h2]
    · simp [GFrameHold.integrityErrors, h1, Option.isNone_iff_eq_none,
        Option.ne_none_iff_isSome.mpr h2]

/-- C8 witness: both-set and neither-set fixtures are rejected; the
exactly-one fixtures are accepted. -/
theorem C8_witness :
    gfhBoth.integrityErrors ≠ [] ∧
    gfhNeither.integrityErrors ≠ [] ∧
    gfhPre.integrityErrors = [] ∧
    gfhC5.integrityErrors = [] :=
  ⟨(C8_clef_exclusivity gfhBoth).1 (by decide),
    (C8_clef_exclusivity gfhNeither).2.1 (by decide),
    (C8_clef_exclusivity gfhPre).2.2 (Or.inr (by decide)),
    (C8_clef_exclusivity gfhC5).2.2 (Or.inl (by decide))⟩

/-- C9: for every tuplet definition whose display product is nonzero
(the representable case, since a fraction with denominator zero is an
error), the computed ratio equals the reference duration divided by the
display duration as an exact fraction equality. -/
theorem C9_calcRatio_exact_division (t : TupletDef)
    (h : t.displayNumber * t.displayDuration ≠ 0) :
    t.calcRatio = t.calcReferenceDuration / t.calcDisplayDuration :=
  mkFraction_div_whole _ _ h

/-- C9 witness: the quintuplet fixture satisfies the exact ratio
equation. -/
theorem C9_witness :
    tupQ.displayNumber * tupQ.displayDuration ≠ 0 ∧
    tupQ.calcRatio = tupQ.calcReferenceDuration / tupQ.calcDisplayDuration :=
  ⟨by decide, C9_calcRatio_exact_division tupQ (by decide)⟩

/-- C10: a tuplet state is constructed with remaining symbolic duration
equal to the full display duration and ratio equal to reference duration
over display duration, and the loop consumes exactly these states: the
active list is the carried list with the map of the constructor over the
entry's tuplet definitions appended. -/
theorem C10_tuplet_state_initial_values (t : TupletDef) (doc : Document)
    (e : Entry) (ts : List TupletState)
    (h : t.displayNumber * t.displayDuration ≠ 0) :
    (TupletState.ofDef t).remainingSymbolicDuration =
      t.calcDisplayDuration ∧
    (TupletState.ofDef t).ratio =
      t.calcReferenceDuration / t.calcDisplayDuration ∧
    stepActive doc e ts =
      ts ++ (doc.tupletsFor e.entnum).map TupletState.ofDef :=
  ⟨rfl, mkFraction_div_whole _ _ h, rfl⟩

/-- C10 witness: the triplet fixture is constructed with its full display
duration remaining and the ratio of its durations, and the nested
fixture's active list appends the constructed states. -/
theorem C10_witness :
    (TupletState.ofDef tupA).remainingSymbolicDuration =
      tupA.calcDisplayDuration ∧
    (TupletState.ofDef tupA).ratio =
      tupA.calcReferenceDuration / tupA.calcDisplayDuration ∧
    stepActive docNested entN1 [] =
      [] ++ (docNested.tupletsFor 1).map TupletState.ofDef :=
  C10_tuplet_state_initial_values tupA docNested entN1 [] (by decide)

end Musx
